import Mathlib

/-!
Verification of the accomplishment extractor (`parse-accomplishments.py`)
and the daily-note merger (`update-obsidian-daily.py`) of the
obsidian-automation-scripts repository.

Strings are modelled as lists of characters (`Str`).  Python's
`str.strip()`, `str.split('\n')`, `'\n'.join`, `str.endswith`, `sorted`
and the concrete `re` patterns used by the two scripts are implemented
directly on `Str`.  The regular expressions are compiled by hand into
deterministic functions that follow the patterns' backtracking semantics
on newline-free input, which is the only input the per-line patterns ever
receive (lines produced by `split('\n')`).
-/

abbrev Str := List Char

def str (s : String) : Str := s.data

/-- Python `str.strip()` whitespace set: space, tab, newline, carriage
return, vertical tab, form feed (same set as `\s` in `re` for `str`). -/
def isPySpace (c : Char) : Bool :=
  c == ' ' || c == '\t' || c == '\n' || c == '\r' || c == '\x0b' || c == '\x0c'

def ltrim (s : Str) : Str := s.dropWhile isPySpace

def rtrim (s : Str) : Str := (s.reverse.dropWhile isPySpace).reverse

/-- Python `str.strip()`. -/
def pystrip (s : Str) : Str := rtrim (ltrim s)

/-- Python `str.split('\n')` (keeps empty pieces; `"".split('\n') == [""]`). -/
def splitLines : Str → List Str
  | [] => [[]]
  | c :: rest =>
    if c = '\n' then [] :: splitLines rest
    else
      match splitLines rest with
      | [] => [[c]]
      | l :: ls => (c :: l) :: ls

/-- Python `sep.join(pieces)`. -/
def joinSep (sep : Str) : List Str → Str
  | [] => []
  | [x] => x
  | x :: y :: ys => x ++ sep ++ joinSep sep (y :: ys)

/-- The `\s*\n` part of the section regexes, applied right after the
literal heading: greedy `\s*` followed by a mandatory `\n` consumes the
maximal whitespace run up to and including its last newline; if the run
contains no newline the match attempt at this position fails.  Returns
`(consumed, remainder)`. -/
def consumeWsNl (s : Str) : Option (Str × Str) :=
  let w := s.takeWhile isPySpace
  if '\n' ∈ w then
    let t := (w.reverse.takeWhile (fun c => !(c == '\n'))).reverse
    some (w.take (w.length - t.length), t ++ s.drop w.length)
  else none

/-- The lazy group `(.*?)(?=\n##|\Z)` under `re.DOTALL`: everything up to
just before the first occurrence of `"\n##"`, or the whole string. -/
def takeUntilNlHH : Str → Str
  | [] => []
  | c :: rest =>
    if c = '\n' ∧ ['#', '#'].isPrefixOf rest then []
    else c :: takeUntilNlHH rest

/-- `re.search(lit + r'\s*\n(.*?)(?=\n##|\Z)', s, re.DOTALL)` for a literal
`lit` (used with `## Recent Accomplishments` and `## Development Work`).
Positions are tried left to right exactly as `re.search` does.  On success
returns `(text before the match, whitespace consumed after the literal,
capture group 1, text after the match)`; the whole match region is
`lit ++ consumed ++ group1` and `match.end()` sits at the start of the
`after` component, since the lookahead consumes nothing. -/
def searchSection (lit : Str) : Str → Option (Str × Str × Str × Str)
  | [] => none
  | c :: rest =>
    match (if lit.isPrefixOf (c :: rest) then consumeWsNl ((c :: rest).drop lit.length) else none) with
    | some (w, r) =>
      let g := takeUntilNlHH r
      some ([], w, g, r.drop g.length)
    | none =>
      match searchSection lit rest with
      | some (b, w, g, a) => some (c :: b, w, g, a)
      | none => none

/-- `(\d{4}-\d{2}-\d{2})` anchored at the current position: exactly four
digits, `-`, two digits, `-`, two digits, with no backtracking (all the
repetition counts are fixed).  Returns the ten-character token and the
rest of the input. -/
def matchDateToken (s : Str) : Option (Str × Str) :=
  match s with
  | c1 :: c2 :: c3 :: c4 :: c5 :: c6 :: c7 :: c8 :: c9 :: c10 :: rest =>
    if c1.isDigit && c2.isDigit && c3.isDigit && c4.isDigit && c5 == '-' &&
       c6.isDigit && c7.isDigit && c8 == '-' && c9.isDigit && c10.isDigit
    then some ([c1, c2, c3, c4, '-', c6, c7, '-', c9, c10], rest)
    else none
  | _ => none

/-- `\s*(.+)$` on newline-free input: greedy `\s*`, then `.+` needs at
least one character; when the whole input is whitespace the engine
backtracks `\s*` one step and captures the final character. -/
def wsDotPlus (x : Str) : Option Str :=
  let w := x.dropWhile isPySpace
  if w = [] then
    if x = [] then none else some (x.drop (x.length - 1))
  else some w

/-- `:?\s*(.+)$` on newline-free input.  When the text after `:` is empty,
`.+` fails and the engine backtracks the optional `:` so that `.+`
captures the `:` itself. -/
def tailMatch (r : Str) : Option Str :=
  if r.head? = some ':' then
    match wsDotPlus r.tail with
    | some g => some g
    | none => some [':']
  else wsDotPlus r

/-- `re.match(r'^-?\s*(\d{4}-\d{2}-\d{2}):?\s*(.+)$', line)`: the optional
leading `-` is consumed exactly when present (a `-` can never satisfy the
following `\s*\d`), then maximal whitespace, then the date token, then the
tail pattern.  Returns `(group 1, group 2)`. -/
def matchPlain (s : Str) : Option (Str × Str) :=
  let s1 := if s.head? = some '-' then s.tail else s
  match matchDateToken (s1.dropWhile isPySpace) with
  | some (tok, rest) => (tailMatch rest).map (fun g => (tok, g))
  | none => none

/-- `re.match(r'^-?\s*\*\*(\d{4}-\d{2}-\d{2})\*\*:?\s*(.+)$', line)`. -/
def matchEmph (s : Str) : Option (Str × Str) :=
  let s1 := if s.head? = some '-' then s.tail else s
  let s2 := s1.dropWhile isPySpace
  if ['*', '*'].isPrefixOf s2 then
    match matchDateToken (s2.drop 2) with
    | some (tok, rest) =>
      if ['*', '*'].isPrefixOf rest then (tailMatch (rest.drop 2)).map (fun g => (tok, g))
      else none
    | none => none
  else none

/-- The `for pattern in date_patterns` loop: the plain shape is tried
first, the emphasized shape second; first match wins. -/
def matchLine (s : Str) : Option (Str × Str) :=
  match matchPlain s with
  | some r => some r
  | none => matchEmph s

def isLeapYear (y : Nat) : Bool := (y % 4 == 0 && y % 100 != 0) || y % 400 == 0

def daysInMonth (y m : Nat) : Nat :=
  if m = 2 then (if isLeapYear y then 29 else 28)
  else if m = 4 ∨ m = 6 ∨ m = 9 ∨ m = 11 then 30
  else 31

def digitsToNat (l : Str) : Nat := l.foldl (fun n c => 10 * n + (c.toNat - 48)) 0

/-- `datetime.strptime(tok, '%Y-%m-%d').date()` on a `\d{4}-\d{2}-\d{2}`
token: succeeds exactly for valid proleptic-Gregorian calendar dates with
year 0001–9999, and raises `ValueError` (here: `none`) otherwise. -/
def strptimeYmd (tok : Str) : Option (Nat × Nat × Nat) :=
  match tok with
  | [c1, c2, c3, c4, '-', c5, c6, '-', c7, c8] =>
    if [c1, c2, c3, c4, c5, c6, c7, c8].all Char.isDigit then
      let y := digitsToNat [c1, c2, c3, c4]
      let m := digitsToNat [c5, c6]
      let d := digitsToNat [c7, c8]
      if 1 ≤ y ∧ y ≤ 9999 ∧ 1 ≤ m ∧ m ≤ 12 ∧ 1 ≤ d ∧ d ≤ daysInMonth y m then
        some (y, m, d)
      else none
    else none
  | _ => none

/-- One extracted entry (`{'project': …, 'date': …, 'content': …,
'details': […]}`). -/
structure Accomplishment where
  project : Str
  date : Str
  content : Str
  details : List Str
deriving DecidableEq

/-- Loop state of `parse_accomplishments`: the entries emitted so far
(`accomplishments` up to, but not including, the still-open
`current_entry`) together with the open entry, if any.  In the Python
code the open entry already sits at the end of the list and its
`details` are mutated in place; here it is flushed into the list when it
closes. -/
abbrev ParseState := List Accomplishment × Option Accomplishment

def flushCur (st : ParseState) : List Accomplishment :=
  match st.2 with
  | some a => st.1 ++ [a]
  | none => st.1

/-- The body of the `for line in lines` loop of `parse_accomplishments`. -/
def step (project : Str) (target : Nat × Nat × Nat) (st : ParseState) (raw : Str) : ParseState :=
  let line := pystrip raw
  if line = [] ∨ line.head? = some '*' then st
  else
    match matchLine line with
    | some (tok, g) =>
      match strptimeYmd tok with
      | some d =>
        if d = target then (flushCur st, some ⟨project, tok, pystrip g, []⟩)
        else (flushCur st, none)
      | none => st
    | none =>
      match st.2 with
      | some cur =>
        if line.head? = some '-' then
          let detail := pystrip line.tail
          if detail = [] then st
          else (st.1, some { cur with details := cur.details ++ [detail] })
        else st
      | none => st

def processLines (project : Str) (target : Nat × Nat × Nat) (lines : List Str) : List Accomplishment :=
  flushCur (lines.foldl (step project target) ([], none))

/-- Invariant: an emitted entry's summary is non-empty after trimming. -/
def recOk (a : Accomplishment) : Prop := pystrip a.content ≠ []

/-- The invariant, lifted to the loop state. -/
def stOk (st : ParseState) : Prop :=
  (∀ a ∈ st.1, recOk a) ∧ (∀ a, st.2 = some a → recOk a)

/-- `s` is empty or does not end in whitespace (true of every stripped
line). -/
def endsOk (s : Str) : Prop := ∀ c, s.getLast? = some c → isPySpace c = false

def recentLit : Str := str "## Recent Accomplishments"

/-- `parse_accomplishments(file_path, target_date)` on the file's text
(`project` is the name of the file's parent directory). -/
def parse_accomplishments (project : Str) (content : Str) (target : Nat × Nat × Nat) :
    List Accomplishment :=
  match searchSection recentLit content with
  | none => []
  | some (_, _, g, _) => processLines project target (splitLines g)

def devLit : Str := str "## Development Work"

def noAccMsg : Str := str "No development accomplishments logged today."

def recordLines (a : Accomplishment) : List Str :=
  (str "- " ++ a.content) :: a.details.map (fun d => str "  - " ++ d)

/-- The lines contributed by one project group: the heading line, then
one line per record and one indented line per detail. -/
def blockLines (accs : List Accomplishment) (p : Str) : List Str :=
  (str "### [[" ++ p ++ str "]]") :: (accs.filter (fun a => a.project == p)).flatMap recordLines

/-- The keys of the `projects` dict in insertion order. -/
def distinctProjects (accs : List Accomplishment) : List Str :=
  accs.foldl (fun ns a => if a.project ∈ ns then ns else ns ++ [a.project]) []

/-- Python `<` on strings: lexicographic comparison of code points. -/
def strLtB : Str → Str → Bool
  | _, [] => false
  | [], _ :: _ => true
  | x :: xs, y :: ys =>
    if x.toNat < y.toNat then true
    else if x = y then strLtB xs ys
    else false

def insertSorted (x : Str) : List Str → List Str
  | [] => [x]
  | y :: ys => if strLtB x y then x :: y :: ys else y :: insertSorted x ys

/-- Python `sorted` on a list of (distinct) strings. -/
def sortStrs (l : List Str) : List Str := l.foldr insertSorted []

/-- The `lines` list built by `format_accomplishments_for_obsidian`:
for each project in sorted order, its block followed by one empty line. -/
def obsidianLines (accs : List Accomplishment) : List Str :=
  (sortStrs (distinctProjects accs)).flatMap (fun p => blockLines accs p ++ [[]])

/-- `format_accomplishments_for_obsidian(accomplishments)`. -/
def format_accomplishments_for_obsidian (accs : List Accomplishment) : Str :=
  if accs = [] then noAccMsg
  else pystrip (joinSep ['\n'] (obsidianLines accs))

/-- `f"{section_header}\n\n{section_content}"`. -/
def fullSection (body : Str) : Str := devLit ++ str "\n\n" ++ body

/-- The template written when the daily note does not exist yet. -/
def newNoteTemplate (dateStr weekday fullSec : Str) : Str :=
  str "# " ++ dateStr ++ str " - " ++ weekday ++
  str "\n\n## Daily Review\n\n### What went well today?\n\n\n### What could be improved?\n\n\n### Tomorrow's priorities\n\n\n" ++
  fullSec ++ str "\n\n## Meeting Notes\n\n\n## Other Notes\n\n"

/-- `update_daily_note(accomplishments, target_date)`, as a pure function
from the current state of the note file (`existing = some content` when
the file exists) to the text written back. -/
def update_daily_note (accs : List Accomplishment) (existing : Option Str)
    (dateStr weekday : Str) : Str :=
  let full_section := fullSection (format_accomplishments_for_obsidian accs)
  match existing with
  | some content =>
    match searchSection devLit content with
    | some (b, _, _, a) => b ++ full_section ++ a
    | none =>
      (if content.getLast? = some '\n' then content else content ++ ['\n']) ++ ['\n'] ++ full_section
  | none => newNoteTemplate dateStr weekday full_section

/-- Control flow of `main()` in `update-obsidian-daily.py` after argument
parsing: if the configured vault root does not exist the run returns exit
code 1 before the parser subprocess or any note write; otherwise it
returns 0 and writes the updated note.  The pair is
`(exit code, content written to the daily note, if any)`. -/
def run_main (vaultExists : Bool) (accs : List Accomplishment) (existing : Option Str)
    (dateStr weekday : Str) : Nat × Option Str :=
  if vaultExists then (0, some (update_daily_note accs existing dateStr weekday))
  else (1, none)

/-- Rendering as worded by the spec: records grouped by project, groups
sorted lexicographically by project name, each group a heading line
followed by a `- summary` line per record and a nested `  - detail` line
per detail, with a blank separator line between consecutive groups; an
empty record list renders as the fixed sentence. -/
def renderSpecObsidian (accs : List Accomplishment) : Str :=
  if accs = [] then noAccMsg
  else joinSep (str "\n\n")
    ((sortStrs (distinctProjects accs)).map (fun p => joinSep ['\n'] (blockLines accs p)))

/-- Rendering hygiene of a record: the summary and each detail are
non-empty and carry no trailing whitespace.  Every record the extractor
emits satisfies this (its fields are produced by `strip()`). -/
def cleanAcc (a : Accomplishment) : Prop :=
  a.content ≠ [] ∧ rtrim a.content = a.content ∧
    ∀ d ∈ a.details, d ≠ [] ∧ rtrim d = d

/-! ### Basic facts about the trimming functions -/

theorem dropWhile_head_false {α : Type} {p : α → Bool} :
    ∀ (l : List α) (c : α) (t : List α), l.dropWhile p = c :: t → p c = false
  | [], c, t, h => by simp at h
  | a :: l, c, t, h => by
    rw [List.dropWhile_cons] at h
    by_cases ha : p a = true
    · rw [if_pos ha] at h
      exact dropWhile_head_false l c t h
    · rw [if_neg ha] at h
      cases h
      exact Bool.eq_false_iff.mpr ha

theorem ltrim_cons_of_not {c : Char} (s : Str) (h : isPySpace c = false) :
    ltrim (c :: s) = c :: s := by
  simp [ltrim, List.dropWhile_cons, h]

theorem rtrim_concat_of_not {c : Char} (l : Str) (h : isPySpace c = false) :
    rtrim (l ++ [c]) = l ++ [c] := by
  simp [rtrim, List.dropWhile_cons, h]

theorem rtrim_concat_of_ws {c : Char} (l : Str) (h : isPySpace c = true) :
    rtrim (l ++ [c]) = rtrim l := by
  simp [rtrim, List.dropWhile_cons, h]

theorem rtrim_append_of_ne (l t : Str) (h : rtrim t ≠ []) :
    rtrim (l ++ t) = l ++ rtrim t := by
  have ht : (t.reverse.dropWhile isPySpace).isEmpty = false := by
    cases h0 : t.reverse.dropWhile isPySpace with
    | nil => exact absurd (by simp [rtrim, h0]) h
    | cons y ys => rfl
  simp only [rtrim, List.reverse_append, List.dropWhile_append, ht]
  simp

theorem rtrim_append_of_eq (l t : Str) (h : rtrim t = []) :
    rtrim (l ++ t) = rtrim l := by
  have ht : (t.reverse.dropWhile isPySpace).isEmpty = true := by
    have h0 := congrArg List.reverse h
    simp only [rtrim, List.reverse_reverse, List.reverse_nil] at h0
    simp [h0]
  simp only [rtrim, List.reverse_append, List.dropWhile_append, ht]
  simp

theorem rtrim_cons_of_not {c : Char} (s : Str) (h : isPySpace c = false) :
    ∃ t, rtrim (c :: s) = c :: t := by
  have hc : (c :: s) = [c] ++ s := rfl
  cases hr : rtrim s with
  | nil =>
    refine ⟨[], ?_⟩
    rw [hc, rtrim_append_of_eq _ _ hr]
    simpa using rtrim_concat_of_not ([] : Str) h
  | cons x xs =>
    refine ⟨x :: xs, ?_⟩
    rw [hc, rtrim_append_of_ne _ _ (by simp [hr]), hr]
    rfl

theorem rtrim_prefix (s : Str) : rtrim s <+: s := by
  refine ⟨(s.reverse.takeWhile isPySpace).reverse, ?_⟩
  rw [rtrim, ← List.reverse_append, List.takeWhile_append_dropWhile, List.reverse_reverse]

theorem pystrip_ne_nil_of_mem {s : Str} {c : Char} (hc : c ∈ s) (h : isPySpace c = false) :
    pystrip s ≠ [] := by
  intro hs
  unfold pystrip rtrim at hs
  have h1 : (ltrim s).reverse.dropWhile isPySpace = [] := by
    have := congrArg List.reverse hs
    simpa using this
  rw [List.dropWhile_eq_nil_iff] at h1
  have h2 : ∀ x ∈ ltrim s, isPySpace x = true := fun x hx => h1 x (by simpa using hx)
  have h3 : ∀ x ∈ s, isPySpace x = true := by
    intro x hx
    have hsplit := List.takeWhile_append_dropWhile (p := isPySpace) (l := s)
    rw [← hsplit] at hx
    rcases List.mem_append.mp hx with h4 | h4
    · exact List.mem_takeWhile_imp h4
    · exact h2 x h4
  rw [h3 c hc] at h
  exact Bool.noConfusion h

theorem pystrip_head_not_ws {s : Str} {c : Char} (h : (pystrip s).head? = some c) :
    isPySpace c = false := by
  obtain ⟨t, ht⟩ := rtrim_prefix (ltrim s)
  unfold pystrip at h
  cases hx : rtrim (ltrim s) with
  | nil => rw [hx] at h; simp at h
  | cons x xs =>
    rw [hx] at h
    have hxc : x = c := by simpa using h
    rw [hx] at ht
    refine dropWhile_head_false s c (xs ++ t) ?_
    show ltrim s = c :: (xs ++ t)
    rw [← ht, ← hxc]
    rfl

theorem pystrip_getLast_not_ws {s : Str} {c : Char} (h : (pystrip s).getLast? = some c) :
    isPySpace c = false := by
  unfold pystrip rtrim at h
  cases hx : (ltrim s).reverse.dropWhile isPySpace with
  | nil => rw [hx] at h; simp at h
  | cons x xs =>
    rw [hx] at h
    have hrev : ((x :: xs).reverse).getLast? = some x := by
      rw [List.getLast?_reverse]
      rfl
    rw [hrev] at h
    cases h
    exact dropWhile_head_false _ _ _ hx

theorem pystrip_endsOk (s : Str) : endsOk (pystrip s) :=
  fun _ hc => pystrip_getLast_not_ws hc

theorem endsOk_of_suffix {s t : Str} (h : t <:+ s) (hs : endsOk s) : endsOk t := by
  intro c hc
  obtain ⟨u, hu⟩ := h
  apply hs
  rw [← hu, List.getLast?_append_of_ne_nil]
  · exact hc
  · intro h0
    rw [h0] at hc
    exact Option.noConfusion hc

/-! ### Lines, joining, splitting, and the section regex on structured text -/

theorem takeUntilNlHH_of_no_nl {s : Str} (h : '\n' ∉ s) : takeUntilNlHH s = s := by
  induction s with
  | nil => rfl
  | cons c t ih =>
    rw [takeUntilNlHH, if_neg, ih (fun hm => h (List.mem_cons_of_mem _ hm))]
    rintro ⟨hc, -⟩
    exact h (hc ▸ List.mem_cons_self c t)

theorem takeUntilNlHH_append_of_no_nl {l : Str} (r : Str) (h : '\n' ∉ l) :
    takeUntilNlHH (l ++ r) = l ++ takeUntilNlHH r := by
  induction l with
  | nil => simp
  | cons c t ih =>
    have hne : ¬(c = '\n' ∧ ['#', '#'].isPrefixOf (t ++ r) = true) := by
      rintro ⟨hc, -⟩
      exact h (hc ▸ List.mem_cons_self c t)
    rw [List.cons_append, takeUntilNlHH, if_neg hne,
      ih (fun hm => h (List.mem_cons_of_mem _ hm)), List.cons_append]

theorem takeUntilNlHH_cons_nl {r : Str} (h : ['#', '#'].isPrefixOf r = false) :
    takeUntilNlHH ('\n' :: r) = '\n' :: takeUntilNlHH r := by
  rw [takeUntilNlHH, if_neg]
  rintro ⟨-, hp⟩
  rw [h] at hp
  exact Bool.noConfusion hp

theorem hh_not_prefix_append {y : Str} (w : Str) (hy : ['#', '#'].isPrefixOf y = false) :
    ['#', '#'].isPrefixOf (y ++ '\n' :: w) = false := by
  cases y with
  | nil => simp [List.isPrefixOf]
  | cons c1 t =>
    cases t with
    | nil => simp [List.isPrefixOf]
    | cons c2 t2 =>
      simp only [List.isPrefixOf, Bool.and_eq_false_iff] at hy ⊢
      rcases hy with hy | hy
      · exact Or.inl hy
      · rcases hy with hy | hy
        · exact Or.inr (Or.inl hy)
        · simp at hy

theorem splitLines_of_no_nl {s : Str} (h : '\n' ∉ s) : splitLines s = [s] := by
  induction s with
  | nil => rfl
  | cons c t ih =>
    have hc : ¬ c = '\n' := by
      intro hc
      exact h (hc ▸ List.mem_cons_self c t)
    rw [splitLines, if_neg hc, ih (fun hm => h (List.mem_cons_of_mem _ hm))]

theorem splitLines_append_nl {l : Str} (r : Str) (h : '\n' ∉ l) :
    splitLines (l ++ '\n' :: r) = l :: splitLines r := by
  induction l with
  | nil =>
    rw [List.nil_append, splitLines, if_pos rfl]
  | cons c t ih =>
    have hc : ¬ c = '\n' := by
      intro hc
      exact h (hc ▸ List.mem_cons_self c t)
    rw [List.cons_append, splitLines, if_neg hc, ih (fun hm => h (List.mem_cons_of_mem _ hm))]

theorem joinSep_cons_cons (sep x y : Str) (ys : List Str) :
    joinSep sep (x :: y :: ys) = x ++ sep ++ joinSep sep (y :: ys) := rfl

theorem splitLines_joinSep :
    ∀ (ls : List Str), ls ≠ [] → (∀ l ∈ ls, '\n' ∉ l) →
      splitLines (joinSep ['\n'] ls) = ls
  | [], h, _ => absurd rfl h
  | [x], _, hf => by
    rw [joinSep]
    exact splitLines_of_no_nl (hf x (by simp))
  | x :: y :: ys, _, hf => by
    rw [joinSep_cons_cons]
    have hx : x ++ ['\n'] ++ joinSep ['\n'] (y :: ys) = x ++ '\n' :: joinSep ['\n'] (y :: ys) := by
      simp
    rw [hx, splitLines_append_nl _ (hf x (by simp)),
      splitLines_joinSep (y :: ys) (by simp) (fun l hl => hf l (List.mem_cons_of_mem _ hl))]

theorem takeUntilNlHH_joinSep :
    ∀ (ls : List Str), (∀ l ∈ ls, '\n' ∉ l ∧ ['#', '#'].isPrefixOf l = false) →
      takeUntilNlHH (joinSep ['\n'] ls) = joinSep ['\n'] ls
  | [], _ => rfl
  | [x], hf => by
    rw [joinSep]
    exact takeUntilNlHH_of_no_nl (hf x (by simp)).1
  | x :: y :: ys, hf => by
    rw [joinSep_cons_cons]
    have hx : x ++ ['\n'] ++ joinSep ['\n'] (y :: ys) = x ++ '\n' :: joinSep ['\n'] (y :: ys) := by
      simp
    rw [hx, takeUntilNlHH_append_of_no_nl _ (hf x (by simp)).1]
    have hyp : ['#', '#'].isPrefixOf (joinSep ['\n'] (y :: ys)) = false := by
      cases ys with
      | nil =>
        rw [joinSep]
        exact (hf y (by simp)).2
      | cons z zs =>
        rw [joinSep_cons_cons]
        have : y ++ ['\n'] ++ joinSep ['\n'] (z :: zs) = y ++ '\n' :: joinSep ['\n'] (z :: zs) := by
          simp
        rw [this]
        exact hh_not_prefix_append _ (hf y (by simp)).2
    rw [takeUntilNlHH_cons_nl hyp,
      takeUntilNlHH_joinSep (y :: ys) (fun l hl => hf l (List.mem_cons_of_mem _ hl))]

/-- Evaluation of the section search when the text begins with the heading
literal, a single newline, and a body whose first character is not
whitespace. -/
theorem searchSection_at_zero (lit : Str) (body : Str) (hc : Char) (hlit : lit = hc :: lit.tail)
    (hbody : ∀ c, body.head? = some c → isPySpace c = false) :
    searchSection lit (lit ++ '\n' :: body) =
      some ([], ['\n'], takeUntilNlHH body, body.drop (takeUntilNlHH body).length) := by
  have hcons : lit ++ '\n' :: body = hc :: (lit.tail ++ '\n' :: body) := by
    rw [hlit]
    rfl
  rw [hcons, searchSection]
  have hpre : lit.isPrefixOf (hc :: (lit.tail ++ '\n' :: body)) = true := by
    rw [← hcons]
    rw [List.isPrefixOf_iff_prefix]
    exact List.prefix_append lit ('\n' :: body)
  rw [if_pos hpre]
  have hdrop : (hc :: (lit.tail ++ '\n' :: body)).drop lit.length = '\n' :: body := by
    rw [← hcons]
    exact List.drop_left lit ('\n' :: body)
  rw [hdrop]
  have htw : ('\n' :: body).takeWhile isPySpace = ['\n'] := by
    rw [List.takeWhile_cons, if_pos (by rfl)]
    cases hb : body with
    | nil => rfl
    | cons b bs =>
      rw [List.takeWhile_cons, if_neg]
      rw [hbody b (by rw [hb]; rfl)]
      simp
  have hcw : consumeWsNl ('\n' :: body) = some (['\n'], body) := by
    unfold consumeWsNl
    rw [htw]
    rw [if_pos (by simp)]
    simp
  rw [hcw]

/-! ### Facts about the line loop -/

theorem matchLine_nil : matchLine [] = none := rfl

theorem step_skip {p : Str} {t : Nat × Nat × Nat} {st : ParseState} {l : Str}
    (h : pystrip l = [] ∨ (pystrip l).head? = some '*') :
    step p t st l = st := by
  unfold step
  rw [if_pos h]

theorem foldl_step_skip {p : Str} {t : Nat × Nat × Nat} :
    ∀ (post : List Str) (st : ParseState),
      (∀ l ∈ post, pystrip l = [] ∨ (pystrip l).head? = some '*') →
      post.foldl (step p t) st = st
  | [], _, _ => rfl
  | l :: ls, st, h => by
    rw [List.foldl_cons, step_skip (h l (by simp))]
    exact foldl_step_skip ls st (fun x hx => h x (List.mem_cons_of_mem _ hx))

/-- Two raw lines that strip to non-skipped text and match the date
patterns with identical groups are processed identically. -/
theorem step_congr_dateLine {p : Str} {t : Nat × Nat × Nat} {st : ParseState}
    {l1 l2 : Str} (tok g : Str)
    (h1 : matchLine (pystrip l1) = some (tok, g))
    (h2 : matchLine (pystrip l2) = some (tok, g))
    (hs1 : ¬(pystrip l1 = [] ∨ (pystrip l1).head? = some '*'))
    (hs2 : ¬(pystrip l2 = [] ∨ (pystrip l2).head? = some '*')) :
    step p t st l1 = step p t st l2 := by
  unfold step
  rw [if_neg hs1, if_neg hs2, h1, h2]

/-! ### Claim theorems: the merger -/

/-- Claim C2 (code bug): the spec promises that when the existing note
contains a `## Development Work` section followed by another `##`-level
heading, merging replaces exactly the region up to just before that next
heading and leaves everything from it onward byte-for-byte intact.  On
the note `"## Development Work\n\n## Other\ntext"` — a Development Work
section with an empty body followed by the heading `## Other` — the
regex's `\s*\n` consumes the blank line together with the newline that
precedes `## Other`, so the lookahead `(?=\n##|\Z)` no longer sees the
next heading and the match extends to the end of the file: the whole
note, `## Other` section included, is replaced by the new section. -/
theorem claim2_theorem (accs : List Accomplishment) (dateStr weekday : Str) :
    update_daily_note accs (some (str "## Development Work\n\n## Other\ntext")) dateStr weekday =
      fullSection (format_accomplishments_for_obsidian accs) := by
  simp only [update_daily_note]
  rw [show searchSection devLit (str "## Development Work\n\n## Other\ntext") =
      some ([], str "\n\n", str "## Other\ntext", []) from by decide]
  simp [fullSection]

set_option maxRecDepth 4000 in
/-- Claim C5 (counterexample): the claim quantifies over every existing
note that contains no `## Development Work` section.  The note
`"x ## Development Work\nstuff"` contains no such heading line — by the
spec's own glossary a section starts at a heading line, so this note has
no Development Work section — yet the code's unanchored `re.search`
finds the literal substring mid-line and takes the replace branch: the
output is `"x "` followed by the new section, the old text from the
substring onward (`stuff` included) is destroyed and nothing is
appended, refuting both the append-at-end and the
preserve-all-existing-content parts of the claim. -/
theorem claim5_counterexample :
    update_daily_note [] (some (str "x ## Development Work\nstuff")) (str "d") (str "w") =
      str "x " ++ fullSection (format_accomplishments_for_obsidian []) ∧
    ¬ (str "stuff" : Str) <:+:
        update_daily_note [] (some (str "x ## Development Work\nstuff")) (str "d") (str "w") := by
  decide

/-- Claim C5, amended: the code decides "no section" with its unanchored
regex search, not with the presence of a heading line.  For every
existing note on which that search finds no match — no occurrence of the
substring `## Development Work` followed (possibly after further
whitespace) by a newline anywhere in the file, even mid-line — merging
appends the heading and rendered body at the end, preserving the
existing content as an unchanged prefix; the separator is a single
`"\n"` when the file already ends with a newline and `"\n\n"` otherwise,
so exactly one blank line stands between the end of the old content and
the appended heading.  (The original claim fails on notes where the
substring occurs mid-line: no section exists, but the replace branch
runs and destroys the rest of the file — see the counterexample.) -/
theorem claim5_theorem (accs : List Accomplishment) (content dateStr weekday : Str)
    (h : searchSection devLit content = none) :
    update_daily_note accs (some content) dateStr weekday =
      content ++ (if content.getLast? = some '\n' then ['\n'] else str "\n\n") ++
        fullSection (format_accomplishments_for_obsidian accs) := by
  simp only [update_daily_note]
  rw [h]
  by_cases hc : content.getLast? = some '\n'
  · rw [if_pos hc, if_pos hc]
  · rw [if_neg hc, if_neg hc]
    simp [str]

theorem claim5_witness :
    searchSection devLit (str "# Title\nstuff") = none ∧
    update_daily_note [] (some (str "# Title\nstuff")) (str "d") (str "w") =
      str "# Title\nstuff" ++
        (if (str "# Title\nstuff").getLast? = some '\n' then ['\n'] else str "\n\n") ++
        fullSection (format_accomplishments_for_obsidian []) :=
  ⟨by decide, claim5_theorem [] (str "# Title\nstuff") (str "d") (str "w") (by decide)⟩

/-- Claim C8: when the configured vault root does not exist, the merge
run returns exit code 1 — a non-zero outcome — and performs no write to
the daily note file (modelled by the `none` in the result pair), for any
accomplishments, any prior state of the note file and any date. -/
theorem claim8_theorem (accs : List Accomplishment) (existing : Option Str)
    (dateStr weekday : Str) :
    run_main false accs existing dateStr weekday = (1, none) := rfl

/-! ### Claim theorems: line shapes -/

/-- Claim C10 (counterexample): the claim says a line consisting of a
date token with no summary text — its own example being `- 2025-01-15:` —
matches neither date shape and opens no record.  In fact the regex
backtracks its optional `:?` and captures the colon with `(.+)`, so the
line matches the plain shape and opens a record whose summary is `":"`. -/
theorem claim10_counterexample :
    parse_accomplishments (str "proj") (str "## Recent Accomplishments\n- 2025-01-15:")
      (2025, 1, 15) = [⟨str "proj", str "2025-01-15", str ":", []⟩] := by decide

/-- Claim C10, amended: a line `- 2025-01-15` (date only, no colon)
matches neither date shape; it opens and closes no record, and when a
record is open it is appended — stripped of its leading `-` — to that
record's details, while with no open record it is dropped.  A line
`- 2025-01-15:` (trailing colon) does match the plain date shape, with
the colon itself as the captured summary. -/
theorem claim10_theorem :
    matchLine (pystrip (str "- 2025-01-15")) = none ∧
    matchLine (pystrip (str "- 2025-01-15:")) = some (str "2025-01-15", str ":") ∧
    (∀ (done : List Accomplishment) (cur : Accomplishment) (p : Str) (t : Nat × Nat × Nat),
      step p t (done, some cur) (str "- 2025-01-15") =
        (done, some { cur with details := cur.details ++ [str "2025-01-15"] })) ∧
    (∀ (done : List Accomplishment) (p : Str) (t : Nat × Nat × Nat),
      step p t (done, none) (str "- 2025-01-15") = (done, none)) := by
  have h1 : pystrip (str "- 2025-01-15") = str "- 2025-01-15" := by decide
  have h2 : matchLine (str "- 2025-01-15") = none := by decide
  have h3 : pystrip (List.tail (str "- 2025-01-15")) = str "2025-01-15" := by decide
  have h4 : (str "- 2025-01-15").head? = some '-' := rfl
  have h5 : ¬(str "- 2025-01-15" = [] ∨ (str "- 2025-01-15").head? = some '*') := by decide
  have h6 : ¬(str "2025-01-15" = []) := by decide
  refine ⟨by decide, by decide, ?_, ?_⟩
  · intro done cur p t
    simp [step, h1, h2, h3, h4, h5, h6]
    intro h
    exact absurd (Or.inl h) h5
  · intro done p t
    simp [step, h1, h2, h5]

/-! ### Claim theorems: counterexamples for the extractor -/

/-- Claim C1 (counterexample): the claim quantifies over every log text
containing the line `- 2025-01-15: did X` under the heading and demands
exactly one matching record; a text containing the line twice yields two
records. -/
theorem claim1_counterexample :
    parse_accomplishments (str "proj")
      (str "## Recent Accomplishments\n- 2025-01-15: did X\n- 2025-01-15: did X")
      (2025, 1, 15) =
      [⟨str "proj", str "2025-01-15", str "did X", []⟩,
       ⟨str "proj", str "2025-01-15", str "did X", []⟩] := by decide

/-- Claim C3 (counterexample): an emphasized-date line without the
leading `-`, here `**2025-01-15**: did X` directly under the heading with
target date 2025-01-15, emits no record at all (the claim demands one
with that date and summary). -/
theorem claim3_counterexample :
    parse_accomplishments (str "proj")
      (str "## Recent Accomplishments\n**2025-01-15**: did X") (2025, 1, 15) = [] := by decide

/-- Claim C4 (counterexample): the claim says every line matching a
date-marker shape — valid calendar date or not — closes the previously
open record.  The line `- 2025-13-99: b` matches the plain shape but its
date is invalid, so `strptime` raises and the handler does `pass`: the
record opened by `- 2025-01-15: a` stays open and the later detail line
`- extra` is appended to it. -/
theorem claim4_counterexample :
    parse_accomplishments (str "proj")
      (str "## Recent Accomplishments\n- 2025-01-15: a\n- 2025-13-99: b\n- extra")
      (2025, 1, 15) = [⟨str "proj", str "2025-01-15", str "a", [str "extra"]⟩] := by decide

/-- Claim C1, amended: the original universal claim fails (see the
counterexample: each occurrence of the line yields a record, and trailing
`- ` lines fill `details`).  Restricted to log texts consisting of the
heading, the line `- 2025-01-15: did X`, and then only blank or
`*`-comment lines (none starting with `##` or containing a newline),
extraction with target date 2025-01-15 yields exactly one record with
summary `"did X"` and empty details. -/
theorem claim1_theorem (proj : Str) (post : List Str)
    (hpost : ∀ l ∈ post, '\n' ∉ l ∧ ['#', '#'].isPrefixOf l = false ∧
      (pystrip l = [] ∨ (pystrip l).head? = some '*')) :
    parse_accomplishments proj
      (recentLit ++ '\n' :: joinSep ['\n'] (str "- 2025-01-15: did X" :: post))
      (2025, 1, 15) = [⟨proj, str "2025-01-15", str "did X", []⟩] := by
  set body := joinSep ['\n'] (str "- 2025-01-15: did X" :: post) with hbody
  have hlines : ∀ l ∈ (str "- 2025-01-15: did X" :: post),
      '\n' ∉ l ∧ ['#', '#'].isPrefixOf l = false := by
    intro l hl
    rcases List.mem_cons.mp hl with rfl | hl
    · exact ⟨by decide, by decide⟩
    · exact ⟨(hpost l hl).1, (hpost l hl).2.1⟩
  have hhead : ∀ c, body.head? = some c → isPySpace c = false := by
    intro c hc
    have hh : body.head? = some '-' := by
      rw [hbody]
      cases post with
      | nil => rfl
      | cons q qs => rfl
    rw [hh] at hc
    cases hc
    decide
  have hsearch := searchSection_at_zero recentLit body '#' (by decide) hhead
  have hg : takeUntilNlHH body = body := by
    rw [hbody]
    exact takeUntilNlHH_joinSep _ hlines
  rw [hg] at hsearch
  unfold parse_accomplishments
  rw [hsearch]
  show processLines proj (2025, 1, 15) (splitLines body) = _
  rw [hbody, splitLines_joinSep _ (by simp) (fun l hl => (hlines l hl).1)]
  unfold processLines
  rw [List.foldl_cons]
  have hstep : step proj (2025, 1, 15) ([], none) (str "- 2025-01-15: did X") =
      ([], some ⟨proj, str "2025-01-15", str "did X", []⟩) := by
    have e1 : pystrip (str "- 2025-01-15: did X") = str "- 2025-01-15: did X" := by decide
    have e2 : matchLine (str "- 2025-01-15: did X") = some (str "2025-01-15", str "did X") := by
      decide
    have e3 : strptimeYmd (str "2025-01-15") = some (2025, 1, 15) := by decide
    have e4 : ¬(str "- 2025-01-15: did X" = [] ∨
        (str "- 2025-01-15: did X").head? = some '*') := by decide
    have e5 : pystrip (str "did X") = str "did X" := by decide
    simp [step, e1, e2, e3, e4, e5, flushCur]
  rw [hstep, foldl_step_skip post _ (fun l hl => (hpost l hl).2.2)]
  rfl

theorem claim1_witness :
    parse_accomplishments (str "p")
      (recentLit ++ '\n' :: joinSep ['\n'] [str "- 2025-01-15: did X"]) (2025, 1, 15) =
      [⟨str "p", str "2025-01-15", str "did X", []⟩] :=
  claim1_theorem (str "p") [] (by simp)

/-- Claim C3, amended: the leading `-` is nominally optional in the
emphasized-date pattern, but a section line of the emphasized shape
without it begins with `*` after stripping, so the comment filter
(`line.startswith('*')`) drops it before the patterns are tried: such a
line never emits a record, whatever its summary text. -/
theorem claim3_theorem (proj S : Str) (hS : '\n' ∉ S) :
    parse_accomplishments proj
      (recentLit ++ '\n' :: (str "**2025-01-15**: " ++ S)) (2025, 1, 15) = [] := by
  set body := str "**2025-01-15**: " ++ S with hbody
  have hnl : '\n' ∉ body := by
    rw [hbody]
    intro hm
    rcases List.mem_append.mp hm with h | h
    · revert h
      decide
    · exact hS h
  have hhead : ∀ c, body.head? = some c → isPySpace c = false := by
    intro c hc
    have hh : body.head? = some '*' := by
      rw [hbody]
      rfl
    rw [hh] at hc
    cases hc
    decide
  have hsearch := searchSection_at_zero recentLit body '#' (by decide) hhead
  rw [takeUntilNlHH_of_no_nl hnl] at hsearch
  unfold parse_accomplishments
  rw [hsearch]
  show processLines proj (2025, 1, 15) (splitLines body) = _
  rw [splitLines_of_no_nl hnl]
  have hstar : (pystrip body).head? = some '*' := by
    rw [hbody, show str "**2025-01-15**: " ++ S = '*' :: (str "*2025-01-15**: " ++ S) from rfl,
      pystrip, ltrim_cons_of_not _ (by decide)]
    obtain ⟨t, ht⟩ := rtrim_cons_of_not (s := str "*2025-01-15**: " ++ S) (c := '*') (by decide)
    rw [ht]
    rfl
  unfold processLines
  rw [List.foldl_cons, List.foldl_nil, step_skip (Or.inr hstar)]
  rfl

theorem claim3_witness :
    parse_accomplishments (str "p")
      (recentLit ++ '\n' :: (str "**2025-01-15**: " ++ str "did X")) (2025, 1, 15) = [] :=
  claim3_theorem (str "p") (str "did X") (by decide)

/-- Claim C4, amended: a non-blank, non-comment line that matches a
date-marker shape with a token that parses as a valid calendar date does
close the previously open record — after the line the open slot is either
empty (date differs from the target) or holds the freshly opened record
with empty details (date equals the target), so later detail lines can
never reach a record opened earlier.  A marker line whose token is an
invalid calendar date, by contrast, leaves the previous record open (see
the counterexample). -/
theorem claim4_theorem (p : Str) (t : Nat × Nat × Nat) (st : ParseState) (line tok g : Str)
    (d : Nat × Nat × Nat) (hstar : ¬(pystrip line).head? = some '*')
    (hm : matchLine (pystrip line) = some (tok, g)) (hd : strptimeYmd tok = some d) :
    (step p t st line).2 = none ∨ ∃ c, (step p t st line).2 = some ⟨p, tok, c, []⟩ := by
  have hne : ¬ pystrip line = [] := by
    intro h0
    rw [h0, matchLine_nil] at hm
    exact Option.noConfusion hm
  unfold step
  rw [if_neg (by tauto), hm]
  dsimp only
  rw [hd]
  dsimp only
  by_cases hdt : d = t
  · rw [if_pos hdt]
    exact Or.inr ⟨pystrip g, rfl⟩
  · rw [if_neg hdt]
    exact Or.inl rfl

theorem claim4_witness :
    (step (str "p") (2025, 1, 15) ([], some ⟨str "p", str "2025-01-14", str "old", []⟩)
        (str "- 2025-01-16: x")).2 = none ∨
      ∃ c, (step (str "p") (2025, 1, 15) ([], some ⟨str "p", str "2025-01-14", str "old", []⟩)
        (str "- 2025-01-16: x")).2 = some ⟨str "p", str "2025-01-16", c, []⟩ :=
  claim4_theorem (str "p") (2025, 1, 15) ([], some ⟨str "p", str "2025-01-14", str "old", []⟩)
    (str "- 2025-01-16: x") (str "2025-01-16") (str "x") (2025, 1, 16)
    (by decide) (by decide) (by decide)

/-! ### The non-empty-summary invariant (claim C9) -/

theorem tail_suffix_self (s : Str) : s.tail <:+ s := by
  cases s with
  | nil => exact List.suffix_refl []
  | cons c t => exact List.suffix_cons c t

theorem endsOk_nil : endsOk [] := by
  intro c hc
  simp at hc

theorem wsDotPlus_ink {x g : Str} (hE : endsOk x) (h : wsDotPlus x = some g) :
    ∃ c ∈ g, isPySpace c = false := by
  unfold wsDotPlus at h
  cases hw : x.dropWhile isPySpace with
  | nil =>
    rw [hw] at h
    simp only [if_pos rfl] at h
    by_cases hx : x = []
    · rw [if_pos hx] at h
      exact Option.noConfusion h
    · rw [if_neg hx] at h
      exfalso
      have hall : ∀ c ∈ x, isPySpace c = true := List.dropWhile_eq_nil_iff.mp hw
      cases hlast : x.getLast? with
      | none => exact hx (List.getLast?_eq_none_iff.mp hlast)
      | some c =>
        have h1 := hE c hlast
        have h2 := hall c (List.mem_of_getLast?_eq_some hlast)
        rw [h1] at h2
        exact Bool.noConfusion h2
  | cons c t =>
    rw [hw] at h
    simp only [if_neg (List.cons_ne_nil c t)] at h
    cases h
    exact ⟨c, List.mem_cons_self c t, dropWhile_head_false x c t hw⟩

theorem tailMatch_ink {r g : Str} (hE : endsOk r) (h : tailMatch r = some g) :
    ∃ c ∈ g, isPySpace c = false := by
  unfold tailMatch at h
  by_cases hr : r.head? = some ':'
  · rw [if_pos hr] at h
    cases hw : wsDotPlus r.tail with
    | none =>
      rw [hw] at h
      cases h
      exact ⟨':', List.mem_cons_self ':' [], by decide⟩
    | some g2 =>
      rw [hw] at h
      cases h
      exact wsDotPlus_ink (endsOk_of_suffix (tail_suffix_self r) hE) hw
  · rw [if_neg hr] at h
    exact wsDotPlus_ink hE h

theorem matchDateToken_suffix {s tok rest : Str} (h : matchDateToken s = some (tok, rest)) :
    rest <:+ s := by
  unfold matchDateToken at h
  split at h
  · split at h
    · cases h
      exact ⟨[_, _, _, _, _, _, _, _, _, _], rfl⟩
    · exact Option.noConfusion h
  · exact Option.noConfusion h

theorem if_tail_suffix (s : Str) : (if s.head? = some '-' then s.tail else s) <:+ s := by
  by_cases hh : s.head? = some '-'
  · rw [if_pos hh]
    exact tail_suffix_self s
  · rw [if_neg hh]

theorem matchPlain_ink {s tok g : Str} (hE : endsOk s) (h : matchPlain s = some (tok, g)) :
    ∃ c ∈ g, isPySpace c = false := by
  have h2 : (match matchDateToken
        ((if s.head? = some '-' then s.tail else s).dropWhile isPySpace) with
      | some (tok2, rest) => (tailMatch rest).map (fun g2 => (tok2, g2))
      | none => none) = some (tok, g) := h
  cases hm : matchDateToken ((if s.head? = some '-' then s.tail else s).dropWhile isPySpace) with
  | none =>
    rw [hm] at h2
    exact Option.noConfusion h2
  | some tr =>
    obtain ⟨tok2, rest⟩ := tr
    rw [hm] at h2
    have h3 : (tailMatch rest).map (fun g2 => (tok2, g2)) = some (tok, g) := h2
    simp only [Option.map_eq_some'] at h3
    obtain ⟨g2, hg2, heq⟩ := h3
    injection heq with hq1 hq2
    subst hq1
    subst hq2
    have hrest : rest <:+ s :=
      (matchDateToken_suffix hm).trans
        ((List.dropWhile_suffix isPySpace).trans (if_tail_suffix s))
    exact tailMatch_ink (endsOk_of_suffix hrest hE) hg2

theorem matchEmph_ink {s tok g : Str} (hE : endsOk s) (h : matchEmph s = some (tok, g)) :
    ∃ c ∈ g, isPySpace c = false := by
  have h2 : (if ['*', '*'].isPrefixOf
        ((if s.head? = some '-' then s.tail else s).dropWhile isPySpace) then
      match matchDateToken
          (((if s.head? = some '-' then s.tail else s).dropWhile isPySpace).drop 2) with
      | some (tok2, rest) =>
        if ['*', '*'].isPrefixOf rest then
          (tailMatch (rest.drop 2)).map (fun g2 => (tok2, g2))
        else none
      | none => none
    else none) = some (tok, g) := h
  have hs2suf : (if s.head? = some '-' then s.tail else s).dropWhile isPySpace <:+ s :=
    (List.dropWhile_suffix isPySpace).trans (if_tail_suffix s)
  by_cases hp :
      ['*', '*'].isPrefixOf ((if s.head? = some '-' then s.tail else s).dropWhile isPySpace) = true
  · rw [if_pos hp] at h2
    cases hm : matchDateToken
        (((if s.head? = some '-' then s.tail else s).dropWhile isPySpace).drop 2) with
    | none =>
      rw [hm] at h2
      exact Option.noConfusion h2
    | some tr =>
      obtain ⟨tok2, rest⟩ := tr
      rw [hm] at h2
      have h3 : (if ['*', '*'].isPrefixOf rest then
          (tailMatch (rest.drop 2)).map (fun g2 => (tok2, g2))
        else none) = some (tok, g) := h2
      by_cases hp2 : ['*', '*'].isPrefixOf rest = true
      · rw [if_pos hp2] at h3
        simp only [Option.map_eq_some'] at h3
        obtain ⟨g2, hg2, heq⟩ := h3
        injection heq with hq1 hq2
        subst hq1
        subst hq2
        have hrest : rest.drop 2 <:+ s :=
          (List.drop_suffix 2 rest).trans
            ((matchDateToken_suffix hm).trans ((List.drop_suffix 2 _).trans hs2suf))
        exact tailMatch_ink (endsOk_of_suffix hrest hE) hg2
      · rw [if_neg hp2] at h3
        exact Option.noConfusion h3
  · rw [if_neg hp] at h2
    exact Option.noConfusion h2

theorem matchLine_ink {s tok g : Str} (hE : endsOk s) (h : matchLine s = some (tok, g)) :
    ∃ c ∈ g, isPySpace c = false := by
  unfold matchLine at h
  cases hm : matchPlain s with
  | some r =>
    rw [hm] at h
    cases h
    exact matchPlain_ink hE hm
  | none =>
    rw [hm] at h
    exact matchEmph_ink hE h

theorem flushCur_ok {st : ParseState} (h : stOk st) : ∀ a ∈ flushCur st, recOk a := by
  intro a ha
  unfold flushCur at ha
  cases hcur : st.2 with
  | none =>
    rw [hcur] at ha
    exact h.1 a ha
  | some cur =>
    rw [hcur] at ha
    rcases List.mem_append.mp ha with h1 | h1
    · exact h.1 a h1
    · have : a = cur := by simpa using h1
      rw [this]
      exact h.2 cur hcur

theorem step_stOk {p : Str} {t : Nat × Nat × Nat} {st : ParseState} (raw : Str)
    (h : stOk st) : stOk (step p t st raw) := by
  unfold step
  by_cases hskip : pystrip raw = [] ∨ (pystrip raw).head? = some '*'
  · rw [if_pos hskip]
    exact h
  · rw [if_neg hskip]
    cases hm : matchLine (pystrip raw) with
    | none =>
      cases hcur : st.2 with
      | none =>
        exact h
      | some cur =>
        dsimp only
        by_cases hdash : (pystrip raw).head? = some '-'
        · rw [if_pos hdash]
          by_cases hdet : pystrip (pystrip raw).tail = []
          · rw [if_pos hdet]
            exact h
          · rw [if_neg hdet]
            refine ⟨h.1, fun a ha => ?_⟩
            have ha2 : { cur with details := cur.details ++ [pystrip (pystrip raw).tail] } = a := by
              simpa using ha
            rw [← ha2]
            exact h.2 cur hcur
        · rw [if_neg hdash]
          exact h
    | some tg =>
      obtain ⟨tok, g⟩ := tg
      dsimp only
      cases hd : strptimeYmd tok with
      | none =>
        exact h
      | some d =>
        dsimp only
        have hne2 : pystrip (pystrip g) ≠ [] := by
          obtain ⟨c, hc, hcw⟩ := matchLine_ink (pystrip_endsOk raw) hm
          have h1 : pystrip g ≠ [] := pystrip_ne_nil_of_mem hc hcw
          cases hg : pystrip g with
          | nil => exact absurd hg h1
          | cons x xs =>
            have hx : isPySpace x = false := pystrip_head_not_ws (s := g) (by rw [hg]; rfl)
            exact pystrip_ne_nil_of_mem (List.mem_cons_self x xs) hx
        have hrec : recOk ⟨p, tok, pystrip g, []⟩ := hne2
        by_cases hdt : d = t
        · rw [if_pos hdt]
          refine ⟨flushCur_ok h, fun a ha => ?_⟩
          have ha2 : (⟨p, tok, pystrip g, []⟩ : Accomplishment) = a := by simpa using ha
          rw [← ha2]
          exact hrec
        · rw [if_neg hdt]
          exact ⟨flushCur_ok h, fun a ha => Option.noConfusion ha⟩

theorem processLines_ok (p : Str) (t : Nat × Nat × Nat) (lines : List Str) :
    ∀ a ∈ processLines p t lines, recOk a := by
  have key : ∀ (ls : List Str) (st : ParseState), stOk st → stOk (ls.foldl (step p t) st) := by
    intro ls
    induction ls with
    | nil => exact fun st h => h
    | cons l ls ih =>
      intro st h
      rw [List.foldl_cons]
      exact ih _ (step_stOk l h)
  intro a ha
  unfold processLines at ha
  refine flushCur_ok (key lines ([], none) ⟨?_, ?_⟩) a ha
  · intro a ha
    exact absurd ha (List.not_mem_nil a)
  · intro a ha
    exact Option.noConfusion ha

/-- Claim C9: every record emitted by extraction — for any project name,
any input text and any target date — has a summary that is non-empty
after trimming.  The captured summary group always contains a
non-whitespace character (a stripped line cannot end in whitespace, and
the backtracked `:` case captures `":"`), so its stripped form is
non-empty. -/
theorem claim9_theorem (proj content : Str) (target : Nat × Nat × Nat) (a : Accomplishment)
    (ha : a ∈ parse_accomplishments proj content target) : pystrip a.content ≠ [] := by
  unfold parse_accomplishments at ha
  cases hs : searchSection recentLit content with
  | none =>
    rw [hs] at ha
    exact absurd ha (List.not_mem_nil a)
  | some q =>
    obtain ⟨b, w, g, aft⟩ := q
    rw [hs] at ha
    exact processLines_ok proj target (splitLines g) a ha

theorem claim9_witness : pystrip (str "did X") ≠ [] :=
  claim9_theorem (str "p") (str "## Recent Accomplishments\n- 2025-01-15: did X")
    (2025, 1, 15) ⟨str "p", str "2025-01-15", str "did X", []⟩ (by decide)

/-! ### The two emphasis styles parse identically (claim C6) -/

theorem digit_not_ws {c : Char} (h : c.isDigit = true) : isPySpace c = false := by
  by_contra hws
  rw [Bool.not_eq_false, isPySpace] at hws
  simp only [Bool.or_eq_true, beq_iff_eq] at hws
  rcases hws with ((((h1 | h1) | h1) | h1) | h1) | h1 <;> subst h1 <;> exact absurd h (by decide)

theorem rtrim_eq_self_of_last {A : Str} {c : Char} (hc : isPySpace c = false)
    (hA : A.getLast? = some c) : rtrim A = A := by
  have h1 : A.dropLast ++ [c] = A :=
    List.dropLast_append_getLast? c (Option.mem_def.mpr hA)
  rw [← h1, rtrim_concat_of_not _ hc]

theorem rtrim_append_ends {A B : Str} {c : Char} (hc : isPySpace c = false)
    (hA : A.getLast? = some c) : rtrim (A ++ B) = A ++ rtrim B := by
  cases hr : rtrim B with
  | nil =>
    rw [rtrim_append_of_eq _ _ hr, List.append_nil, rtrim_eq_self_of_last hc hA]
  | cons x xs =>
    rw [rtrim_append_of_ne _ _ (by simp [hr]), hr]

theorem pystrip_append_line (A B : Str) (c0 : Char) (h0 : isPySpace c0 = false)
    (hhead : A.head? = some c0) (c1 : Char) (h1 : isPySpace c1 = false)
    (hlast : A.getLast? = some c1) :
    pystrip (A ++ B) = A ++ rtrim B := by
  unfold pystrip
  have hl : ltrim (A ++ B) = A ++ B := by
    cases A with
    | nil => exact absurd hhead (by simp)
    | cons x xs =>
      have hx : x = c0 := by simpa using hhead
      rw [List.cons_append, ltrim_cons_of_not _ (by rw [hx]; exact h0)]
  rw [hl, rtrim_append_ends h1 hlast]

theorem tailMatch_colon_some (R : Str) : ∃ g0, tailMatch (':' :: R) = some g0 := by
  unfold tailMatch
  rw [if_pos (show ((':' :: R : Str)).head? = some ':' from rfl)]
  cases hw : wsDotPlus (List.tail (':' :: R)) with
  | none => exact ⟨[':'], rfl⟩
  | some g0 => exact ⟨g0, rfl⟩

theorem matchLine_plain_eval (a b c d e f g h : Char) (R g0 : Str)
    (ha : a.isDigit = true) (hb : b.isDigit = true) (hc : c.isDigit = true)
    (hd : d.isDigit = true) (he : e.isDigit = true) (hf : f.isDigit = true)
    (hg : g.isDigit = true) (hh : h.isDigit = true)
    (hg0 : tailMatch (':' :: R) = some g0) :
    matchLine ('-' :: ' ' :: a :: b :: c :: d :: '-' :: e :: f :: '-' :: g :: h :: ':' :: R) =
      some (([a, b, c, d, '-', e, f, '-', g, h] : Str), g0) := by
  have hplain : matchPlain
      ('-' :: ' ' :: a :: b :: c :: d :: '-' :: e :: f :: '-' :: g :: h :: ':' :: R) =
      (tailMatch (':' :: R)).map (fun g2 => (([a, b, c, d, '-', e, f, '-', g, h] : Str), g2)) := by
    simp only [matchPlain, List.head?_cons, List.tail_cons, if_true]
    rw [List.dropWhile_cons, if_pos (show isPySpace ' ' = true from by decide)]
    rw [List.dropWhile_cons, if_neg (by rw [digit_not_ws ha]; exact Bool.false_ne_true)]
    simp only [matchDateToken]
    rw [if_pos (show (a.isDigit && b.isDigit && c.isDigit && d.isDigit && ('-' == '-') &&
        e.isDigit && f.isDigit && ('-' == '-') && g.isDigit && h.isDigit) = true from by
      simp only [ha, hb, hc, hd, he, hf, hg, hh, beq_self_eq_true, Bool.true_and, Bool.and_true,
        Bool.and_self])]
  unfold matchLine
  rw [hplain, hg0]
  rfl

theorem matchLine_emph_eval (a b c d e f g h : Char) (R g0 : Str)
    (ha : a.isDigit = true) (hb : b.isDigit = true) (hc : c.isDigit = true)
    (hd : d.isDigit = true) (he : e.isDigit = true) (hf : f.isDigit = true)
    (hg : g.isDigit = true) (hh : h.isDigit = true)
    (hg0 : tailMatch (':' :: R) = some g0) :
    matchLine ('-' :: ' ' :: '*' :: '*' :: a :: b :: c :: d :: '-' :: e :: f :: '-' ::
        g :: h :: '*' :: '*' :: ':' :: R) =
      some (([a, b, c, d, '-', e, f, '-', g, h] : Str), g0) := by
  have hplainfail : matchPlain
      ('-' :: ' ' :: '*' :: '*' :: a :: b :: c :: d :: '-' :: e :: f :: '-' ::
        g :: h :: '*' :: '*' :: ':' :: R) = none := by
    simp only [matchPlain, List.head?_cons, List.tail_cons, if_true]
    rw [List.dropWhile_cons, if_pos (show isPySpace ' ' = true from by decide)]
    rw [List.dropWhile_cons, if_neg (show ¬(isPySpace '*' = true) from by decide)]
    simp only [matchDateToken]
    rw [if_neg (show ¬(('*').isDigit && ('*').isDigit && a.isDigit && b.isDigit && (c == '-') &&
        d.isDigit && ('-').isDigit && (e == '-') && f.isDigit && ('-').isDigit) = true from by
      simp [show ('*').isDigit = false from by decide])]
  have hemph : matchEmph
      ('-' :: ' ' :: '*' :: '*' :: a :: b :: c :: d :: '-' :: e :: f :: '-' ::
        g :: h :: '*' :: '*' :: ':' :: R) =
      (tailMatch (':' :: R)).map (fun g2 => (([a, b, c, d, '-', e, f, '-', g, h] : Str), g2)) := by
    simp only [matchEmph, List.head?_cons, List.tail_cons, if_true]
    rw [List.dropWhile_cons, if_pos (show isPySpace ' ' = true from by decide)]
    rw [List.dropWhile_cons, if_neg (show ¬(isPySpace '*' = true) from by decide)]
    rw [if_pos (show (['*', '*'] : Str).isPrefixOf ('*' :: '*' :: a :: b :: c :: d :: '-' ::
        e :: f :: '-' :: g :: h :: '*' :: '*' :: ':' :: R) = true from by
      simp [List.isPrefixOf])]
    show (match matchDateToken (a :: b :: c :: d :: '-' :: e :: f :: '-' ::
        g :: h :: '*' :: '*' :: ':' :: R) with
      | some (tok, rest) =>
        if (['*', '*'] : Str).isPrefixOf rest then
          (tailMatch (rest.drop 2)).map (fun g2 => (tok, g2))
        else none
      | none => none) = _
    simp only [matchDateToken]
    rw [if_pos (show (a.isDigit && b.isDigit && c.isDigit && d.isDigit && ('-' == '-') &&
        e.isDigit && f.isDigit && ('-' == '-') && g.isDigit && h.isDigit) = true from by
      simp only [ha, hb, hc, hd, he, hf, hg, hh, beq_self_eq_true, Bool.true_and, Bool.and_true,
        Bool.and_self])]
    show (if (['*', '*'] : Str).isPrefixOf ('*' :: '*' :: ':' :: R) then
        (tailMatch (List.drop 2 ('*' :: '*' :: ':' :: R))).map
          (fun g2 => (([a, b, c, d, '-', e, f, '-', g, h] : Str), g2))
      else none) = _
    rw [if_pos (show (['*', '*'] : Str).isPrefixOf ('*' :: '*' :: ':' :: R) = true from by
      simp [List.isPrefixOf])]
    rfl
  unfold matchLine
  rw [hplainfail, hemph, hg0]
  rfl

theorem step_plain_emph (p : Str) (t : Nat × Nat × Nat) (st : ParseState)
    (a b c d e f g h : Char) (S : Str)
    (ha : a.isDigit = true) (hb : b.isDigit = true) (hc : c.isDigit = true)
    (hd : d.isDigit = true) (he : e.isDigit = true) (hf : f.isDigit = true)
    (hg : g.isDigit = true) (hh : h.isDigit = true) :
    step p t st (str "- " ++ ([a, b, c, d, '-', e, f, '-', g, h] : Str) ++ str ": " ++ S) =
      step p t st (str "- **" ++ ([a, b, c, d, '-', e, f, '-', g, h] : Str) ++ str "**: " ++ S) := by
  obtain ⟨g0, hg0⟩ := tailMatch_colon_some (rtrim (' ' :: S))
  have hp1 : pystrip (str "- " ++ ([a, b, c, d, '-', e, f, '-', g, h] : Str) ++ str ": " ++ S) =
      ('-' :: ' ' :: a :: b :: c :: d :: '-' :: e :: f :: '-' :: g :: h :: ':' ::
        rtrim (' ' :: S) : Str) := by
    have hsplit : str "- " ++ ([a, b, c, d, '-', e, f, '-', g, h] : Str) ++ str ": " ++ S =
        (('-' :: ' ' :: a :: b :: c :: d :: '-' :: e :: f :: '-' :: g :: h :: [':'] : Str)) ++
          (' ' :: S) := by
      simp [str]
    rw [hsplit, pystrip_append_line
      (('-' :: ' ' :: a :: b :: c :: d :: '-' :: e :: f :: '-' :: g :: h :: [':'] : Str))
      (' ' :: S) '-' (by decide) rfl ':' (by decide) rfl]
    simp
  have hp2 : pystrip (str "- **" ++ ([a, b, c, d, '-', e, f, '-', g, h] : Str) ++ str "**: " ++ S) =
      ('-' :: ' ' :: '*' :: '*' :: a :: b :: c :: d :: '-' :: e :: f :: '-' :: g :: h ::
        '*' :: '*' :: ':' :: rtrim (' ' :: S) : Str) := by
    have hsplit : str "- **" ++ ([a, b, c, d, '-', e, f, '-', g, h] : Str) ++ str "**: " ++ S =
        (('-' :: ' ' :: '*' :: '*' :: a :: b :: c :: d :: '-' :: e :: f :: '-' :: g :: h ::
          '*' :: '*' :: [':'] : Str)) ++ (' ' :: S) := by
      simp [str]
    rw [hsplit, pystrip_append_line
      (('-' :: ' ' :: '*' :: '*' :: a :: b :: c :: d :: '-' :: e :: f :: '-' :: g :: h ::
        '*' :: '*' :: [':'] : Str))
      (' ' :: S) '-' (by decide) rfl ':' (by decide) rfl]
    simp
  refine step_congr_dateLine ([a, b, c, d, '-', e, f, '-', g, h] : Str) g0
    ?_ ?_ ?_ ?_
  · rw [hp1]
    exact matchLine_plain_eval a b c d e f g h _ g0 ha hb hc hd he hf hg hh hg0
  · rw [hp2]
    exact matchLine_emph_eval a b c d e f g h _ g0 ha hb hc hd he hf hg hh hg0
  · rw [hp1]
    refine not_or.mpr ⟨by simp, ?_⟩
    simp only [List.head?_cons]
    intro hx
    rw [Option.some_inj] at hx
    exact absurd hx (by decide)
  · rw [hp2]
    refine not_or.mpr ⟨by simp, ?_⟩
    simp only [List.head?_cons]
    intro hx
    rw [Option.some_inj] at hx
    exact absurd hx (by decide)

/-- Claim C6: replacing a section line `- D: S` by `- **D**: S` (for any
date-shaped token `D` — eight digit characters in the `\d{4}-\d{2}-\d{2}`
frame — and any summary text `S`, with any surrounding section lines)
leaves the extracted record sequence unchanged: both emphasis styles
strip, match, and capture identically, including the degenerate cases
(empty summary, invalid calendar date, non-target date). -/
theorem claim6_theorem (p : Str) (t : Nat × Nat × Nat)
    (a b c d e f g h : Char) (S : Str) (pre post : List Str)
    (hdig : (a.isDigit && b.isDigit && c.isDigit && d.isDigit && e.isDigit &&
             f.isDigit && g.isDigit && h.isDigit) = true) :
    processLines p t
        (pre ++ (str "- " ++ ([a, b, c, d, '-', e, f, '-', g, h] : Str) ++ str ": " ++ S) :: post) =
      processLines p t
        (pre ++ (str "- **" ++ ([a, b, c, d, '-', e, f, '-', g, h] : Str) ++ str "**: " ++ S)
          :: post) := by
  simp only [Bool.and_eq_true] at hdig
  obtain ⟨⟨⟨⟨⟨⟨⟨ha, hb⟩, hc⟩, hd⟩, he⟩, hf⟩, hg⟩, hh⟩ := hdig
  unfold processLines
  rw [List.foldl_append, List.foldl_append, List.foldl_cons, List.foldl_cons,
    step_plain_emph p t _ a b c d e f g h S ha hb hc hd he hf hg hh]

theorem claim6_witness :
    processLines (str "p") (2025, 1, 15)
        ([] ++ (str "- " ++ (['2', '0', '2', '5', '-', '0', '1', '-', '1', '5'] : Str) ++
          str ": " ++ str "released v2") :: []) =
      processLines (str "p") (2025, 1, 15)
        ([] ++ (str "- **" ++ (['2', '0', '2', '5', '-', '0', '1', '-', '1', '5'] : Str) ++
          str "**: " ++ str "released v2") :: []) :=
  claim6_theorem (str "p") (2025, 1, 15) '2' '0' '2' '5' '0' '1' '1' '5'
    (str "released v2") [] [] (by decide)

/-! ### The rendered section equals the spec's description (claim C7) -/

theorem rtrim_fix_last {s : Str} (hs : rtrim s = s) {c : Char} (h : s.getLast? = some c) :
    isPySpace c = false := by
  by_contra hws
  rw [Bool.not_eq_false] at hws
  have h1 : s.dropLast ++ [c] = s := List.dropLast_append_getLast? c (Option.mem_def.mpr h)
  have h2 : rtrim s = rtrim s.dropLast := by
    rw [← h1, rtrim_concat_of_ws _ hws]
    rw [List.dropLast_concat]
  have h3 : (rtrim s.dropLast).length ≤ s.dropLast.length := by
    unfold rtrim
    rw [List.length_reverse]
    calc ((s.dropLast.reverse).dropWhile isPySpace).length
        ≤ s.dropLast.reverse.length := (List.dropWhile_suffix isPySpace).sublist.length_le
      _ = s.dropLast.length := List.length_reverse _
  have h4 : s.length = (rtrim s).length := by rw [hs]
  rw [h2] at h4
  have h5 : s.dropLast.length = s.length - 1 := List.length_dropLast s
  have h6 : s ≠ [] := by
    intro h0
    rw [h0] at h
    exact Option.noConfusion h
  have h7 : 0 < s.length := List.length_pos.mpr h6
  omega

theorem joinSep_head {sep : Str} (x : Str) (ls : List Str) (hx : x ≠ []) :
    (joinSep sep (x :: ls)).head? = x.head? := by
  cases ls with
  | nil => rfl
  | cons y ys =>
    rw [joinSep_cons_cons, List.append_assoc]
    exact List.head?_append_of_ne_nil _ hx

theorem joinSep_ends (sep : Str) :
    ∀ (ls : List Str), (∀ l ∈ ls, l ≠ [] ∧ endsOk l) → ls ≠ [] →
      joinSep sep ls ≠ [] ∧ endsOk (joinSep sep ls)
  | [], _, h => absurd rfl h
  | [x], hl, _ => ⟨(hl x (by simp)).1, (hl x (by simp)).2⟩
  | x :: y :: ys, hl, _ => by
    obtain ⟨hne, hE⟩ :=
      joinSep_ends sep (y :: ys) (fun l h => hl l (List.mem_cons_of_mem _ h)) (by simp)
    rw [joinSep_cons_cons]
    constructor
    · simp [(hl x (by simp)).1]
    · intro c hc
      rw [List.getLast?_append_of_ne_nil _ hne] at hc
      exact hE c hc

theorem insertSorted_ne_nil (x : Str) (l : List Str) : insertSorted x l ≠ [] := by
  cases l with
  | nil => simp [insertSorted]
  | cons y ys =>
    unfold insertSorted
    split <;> simp

theorem sortStrs_ne_nil {l : List Str} (h : l ≠ []) : sortStrs l ≠ [] := by
  cases l with
  | nil => exact absurd rfl h
  | cons x xs =>
    unfold sortStrs
    rw [List.foldr_cons]
    exact insertSorted_ne_nil x _

theorem distinctProjects_ne_nil {accs : List Accomplishment} (h : accs ≠ []) :
    distinctProjects accs ≠ [] := by
  unfold distinctProjects
  have key : ∀ (l : List Accomplishment) (ns : List Str), ns ≠ [] →
      l.foldl (fun ns a => if a.project ∈ ns then ns else ns ++ [a.project]) ns ≠ [] := by
    intro l
    induction l with
    | nil => exact fun ns h => h
    | cons a l ih =>
      intro ns hne
      rw [List.foldl_cons]
      refine ih _ ?_
      split
      · exact hne
      · simp
  cases accs with
  | nil => exact absurd rfl h
  | cons a l =>
    rw [List.foldl_cons, if_neg (List.not_mem_nil a.project)]
    exact key l _ (by simp)

theorem blockLines_lines_ok {accs : List Accomplishment} (hcl : ∀ a ∈ accs, cleanAcc a)
    (p : Str) : ∀ l ∈ blockLines accs p, l ≠ [] ∧ endsOk l := by
  intro l hl
  unfold blockLines at hl
  rcases List.mem_cons.mp hl with rfl | hl
  · constructor
    · show ('#' :: _ : Str) ≠ []
      simp
    · intro ch hch
      rw [List.getLast?_append_of_ne_nil _ (show str "]]" ≠ [] from by decide)] at hch
      have : ch = ']' := by
        have h2 : (str "]]").getLast? = some ']' := rfl
        rw [h2] at hch
        exact (Option.some_inj.mp hch).symm
      rw [this]
      decide
  · rw [List.mem_flatMap] at hl
    obtain ⟨rec, hrec, hlm⟩ := hl
    have hca : cleanAcc rec := hcl rec (List.mem_of_mem_filter hrec)
    unfold recordLines at hlm
    rcases List.mem_cons.mp hlm with rfl | hlm
    · constructor
      · show ('-' :: _ : Str) ≠ []
        simp
      · intro ch hch
        rw [List.getLast?_append_of_ne_nil _ hca.1] at hch
        exact rtrim_fix_last hca.2.1 hch
    · rw [List.mem_map] at hlm
      obtain ⟨d, hd, rfl⟩ := hlm
      obtain ⟨hd1, hd2⟩ := hca.2.2 d hd
      constructor
      · show (' ' :: _ : Str) ≠ []
        simp
      · intro ch hch
        rw [List.getLast?_append_of_ne_nil _ hd1] at hch
        exact rtrim_fix_last hd2 hch

theorem joinSep_append_blank {sep : Str} :
    ∀ (xs : List Str), xs ≠ [] → joinSep sep (xs ++ [[]]) = joinSep sep xs ++ sep
  | [], h => absurd rfl h
  | [x], _ => by
    show joinSep sep [x, []] = x ++ sep
    rw [joinSep_cons_cons]
    simp [joinSep]
  | x :: y :: ys, _ => by
    show joinSep sep (x :: ((y :: ys) ++ [[]])) = _
    rw [show (y :: ys) ++ [[]] = y :: (ys ++ [[]]) from rfl, joinSep_cons_cons,
      ← show (y :: ys) ++ [[]] = y :: (ys ++ [[]]) from rfl,
      joinSep_append_blank (y :: ys) (by simp), joinSep_cons_cons]
    simp [List.append_assoc]

theorem joinSep_append {sep : Str} :
    ∀ (xs ys : List Str), xs ≠ [] → ys ≠ [] →
      joinSep sep (xs ++ ys) = joinSep sep xs ++ sep ++ joinSep sep ys
  | [], _, h, _ => absurd rfl h
  | [x], y :: ys, _, _ => by
    rw [show ([x] ++ (y :: ys)) = x :: y :: ys from rfl, joinSep_cons_cons]
    rfl
  | x1 :: x2 :: xs, ys, _, hys => by
    rw [show ((x1 :: x2 :: xs) ++ ys) = x1 :: ((x2 :: xs) ++ ys) from rfl]
    rw [show (x2 :: xs) ++ ys = x2 :: (xs ++ ys) from rfl, joinSep_cons_cons,
      ← show (x2 :: xs) ++ ys = x2 :: (xs ++ ys) from rfl,
      joinSep_append (x2 :: xs) ys (by simp) hys, joinSep_cons_cons]
    simp [List.append_assoc]

theorem joinSep_blocks :
    ∀ (bls : List (List Str)), (∀ b ∈ bls, b ≠ []) → bls ≠ [] →
      joinSep ['\n'] (bls.flatMap (fun b => b ++ [[]])) =
        joinSep (str "\n\n") (bls.map (joinSep ['\n'])) ++ ['\n']
  | [], _, h => absurd rfl h
  | [b], hb, _ => by
    simp only [List.flatMap_cons, List.flatMap_nil, List.append_nil, List.map_cons,
      List.map_nil]
    rw [joinSep_append_blank b (hb b (by simp))]
    rfl
  | b :: b2 :: bls, hb, _ => by
    rw [List.flatMap_cons]
    rw [joinSep_append (b ++ [[]]) _ (by simp) (by
      rw [List.flatMap_cons]
      simp)]
    rw [joinSep_append_blank b (hb b (by simp))]
    rw [joinSep_blocks (b2 :: bls) (fun x hx => hb x (List.mem_cons_of_mem _ hx)) (by simp)]
    rw [show (b :: b2 :: bls).map (joinSep ['\n']) =
      joinSep ['\n'] b :: joinSep ['\n'] b2 :: bls.map (joinSep ['\n']) from rfl,
      joinSep_cons_cons]
    rw [show str "\n\n" = ['\n', '\n'] from rfl]
    simp [List.append_assoc]

theorem pystrip_append_nl_eq {J : Str} (hne : J ≠ []) (hE : endsOk J) {c0 : Char}
    (hws : isPySpace c0 = false) (hhead : J.head? = some c0) :
    pystrip (J ++ ['\n']) = J := by
  unfold pystrip
  have hl : ltrim (J ++ ['\n']) = J ++ ['\n'] := by
    cases J with
    | nil => exact absurd rfl hne
    | cons x xs =>
      have hx : x = c0 := by simpa using hhead
      rw [List.cons_append, ltrim_cons_of_not _ (by rw [hx]; exact hws)]
  rw [hl, rtrim_concat_of_ws _ (by decide)]
  cases hc : J.getLast? with
  | none => exact absurd (List.getLast?_eq_none_iff.mp hc) hne
  | some c => exact rtrim_eq_self_of_last (hE c hc) hc

/-- Claim C7: rendering the empty record list yields the fixed
no-accomplishments sentence, and rendering a non-empty record list whose
summaries and details are non-empty and right-trimmed (true of every
extractor-produced record) yields exactly the layout the spec describes:
the records grouped by project, the groups sorted lexicographically by
project name, each group a `### [[project]]` heading line followed by one
`- summary` line per record and one nested `  - detail` line per detail,
with a single blank separator line between consecutive groups.  The
code's trailing blank line after the last group is removed by its final
`strip()`. -/
theorem claim7_theorem :
    format_accomplishments_for_obsidian [] = noAccMsg ∧
    ∀ accs : List Accomplishment, accs ≠ [] → (∀ a ∈ accs, cleanAcc a) →
      format_accomplishments_for_obsidian accs = renderSpecObsidian accs := by
  refine ⟨rfl, fun accs hne hcl => ?_⟩
  unfold format_accomplishments_for_obsidian renderSpecObsidian
  rw [if_neg hne]
  have hnames : sortStrs (distinctProjects accs) ≠ [] :=
    sortStrs_ne_nil (distinctProjects_ne_nil hne)
  have hol : obsidianLines accs =
      ((sortStrs (distinctProjects accs)).map (blockLines accs)).flatMap
        (fun b => b ++ [[]]) := by
    unfold obsidianLines
    rw [List.flatMap_map]
  have hbne : ∀ b ∈ (sortStrs (distinctProjects accs)).map (blockLines accs), b ≠ [] := by
    intro b hb
    obtain ⟨p, _, rfl⟩ := List.mem_map.mp hb
    exact List.cons_ne_nil _ _
  have hblsne : (sortStrs (distinctProjects accs)).map (blockLines accs) ≠ [] := by
    cases hsn : sortStrs (distinctProjects accs) with
    | nil => exact absurd hsn hnames
    | cons n rest => simp
  have hJprops :
      joinSep (str "\n\n")
        (((sortStrs (distinctProjects accs)).map (blockLines accs)).map (joinSep ['\n'])) ≠ [] ∧
      endsOk (joinSep (str "\n\n")
        (((sortStrs (distinctProjects accs)).map (blockLines accs)).map (joinSep ['\n']))) := by
    refine joinSep_ends _ _ ?_ ?_
    · intro l hl
      rw [List.mem_map] at hl
      obtain ⟨b, hbm, rfl⟩ := hl
      obtain ⟨p, _, rfl⟩ := List.mem_map.mp hbm
      exact joinSep_ends _ _ (blockLines_lines_ok hcl p) (List.cons_ne_nil _ _)
    · cases hsn : sortStrs (distinctProjects accs) with
      | nil => exact absurd hsn hnames
      | cons n rest => simp
  have hhead :
      (joinSep (str "\n\n")
        (((sortStrs (distinctProjects accs)).map (blockLines accs)).map
          (joinSep ['\n']))).head? = some '#' := by
    cases hsn : sortStrs (distinctProjects accs) with
    | nil => exact absurd hsn hnames
    | cons n rest =>
      rw [show (((n :: rest).map (blockLines accs)).map (joinSep ['\n'])) =
        joinSep ['\n'] (blockLines accs n) ::
          ((rest.map (blockLines accs)).map (joinSep ['\n'])) from rfl]
      rw [joinSep_head _ _
        (joinSep_ends _ _ (blockLines_lines_ok hcl n) (List.cons_ne_nil _ _)).1]
      rw [show blockLines accs n = (str "### [[" ++ n ++ str "]]") ::
        ((accs.filter (fun a => a.project == n)).flatMap recordLines) from rfl]
      have hhne : (str "### [[" ++ n ++ str "]]" : Str) ≠ [] := by
        intro h0
        rw [List.append_eq_nil] at h0
        exact absurd h0.2 (by decide)
      rw [joinSep_head _ _ hhne]
      rfl
  rw [hol, joinSep_blocks _ hbne hblsne,
    pystrip_append_nl_eq hJprops.1 hJprops.2 (show isPySpace '#' = false from by decide) hhead,
    List.map_map, if_neg hne]
  rfl

theorem claim7_witness :
    format_accomplishments_for_obsidian [] = noAccMsg ∧
    format_accomplishments_for_obsidian
        [⟨str "beta", str "2025-01-15", str "x", [str "d1"]⟩,
         ⟨str "alpha", str "2025-01-15", str "y", []⟩] =
      renderSpecObsidian
        [⟨str "beta", str "2025-01-15", str "x", [str "d1"]⟩,
         ⟨str "alpha", str "2025-01-15", str "y", []⟩] :=
  ⟨claim7_theorem.1,
    claim7_theorem.2 _ (by decide) (by
      intro a ha
      refine ⟨?_, ?_, ?_⟩ <;> revert a <;> decide)⟩
